import Mathlib

/-!
Verification of the table cache component (`src/table_cache.c`) of this
entity/component storage engine.

The cache partitions the tables registered with a consumer into two parallel
arrays, `tables` (tables with at least one row) and `empty_tables`, and keeps
an index map from table id to a signed position: a nonnegative value `i`
means position `i` in `tables`, a negative value `k` means position `-k-1`
in `empty_tables`.

Tables are identified by their id (`table->id`); the pointer comparison
`table == elem->table` in the C source is modelled as id equality, which is
faithful because distinct live tables have distinct ids.  The element payload
beyond the `ecs_table_cache_hdr_t` header is never touched by the cache
operations and is not modelled; an element is just its `table` field, which
may be a null pointer (`Option TableId`).

C `int32_t` arithmetic is modelled with `Int`; all quantities involved are
array positions and signed encodings thereof, far below 2^31, so no overflow
reduction is needed.

Assertion failures (`ecs_assert(..., ECS_INTERNAL_ERROR, ...)`) and undefined
behaviour (null pointer dereference, out-of-range vector access) are modelled
by returning `none`.
-/

namespace TableCache

abbrev TableId := Nat

/-- The observable part of `ecs_table_t` used by the cache: its id and its
current row count (`ecs_table_count`). -/
structure Table where
  id : TableId
  count : Nat
deriving DecidableEq, Repr

/-- An element of one of the two cache arrays: the `table` field of its
`ecs_table_cache_hdr_t` header.  `none` models a null table pointer. -/
abbrev Elem := Option TableId

abbrev Arr := List Elem

/-- The cache index `ecs_map_t` from table id to signed position, modelled as
an association list (first occurrence of a key wins). -/
abbrev IndexMap := List (TableId × Int)

/-- Modelled from the spec: `ecs_map_get` returns the value stored for a key,
or a null pointer (here `none`) when the key is absent. -/
def mapGet : IndexMap → TableId → Option Int
  | [], _ => none
  | (k0, v) :: rest, k => if k0 = k then some v else mapGet rest k

/-- Modelled from the spec: `ecs_map_set` overwrites the value stored for a
key, inserting the key when absent. -/
def mapSet : IndexMap → TableId → Int → IndexMap
  | [], k, v => [(k, v)]
  | (k0, v0) :: rest, k, v =>
    if k0 = k then (k, v) :: rest else (k0, v0) :: mapSet rest k v

/-- The `ecs_table_cache_t` state: the non-empty array `tables`, the array
`empty_tables`, and the id-to-signed-position index map.  `payload_size` is
not modelled (elements are headers only). -/
structure Cache where
  tables : Arr
  empty_tables : Arr
  index : IndexMap
deriving DecidableEq, Repr

/-- Modelled from the spec: `ecs_vector_remove_index` removes the element at
position `i` by moving the last element of the vector into the vacated slot
and truncating by one ("the freed slot is backfilled by moving the last
element of its array into the slot").  When `i` is the last position the copy
is the identity and the vector is just truncated. -/
def vecRemoveIndex (l : Arr) (i : Nat) : Arr :=
  match l.getLast? with
  | none => l
  | some a => (l.set i a).dropLast

/-- The bookkeeping block at the top of `move_table` (`table_cache.c` lines
22-51): when the source array has more than one element, the index entry of
its last element (the element that will backfill the vacated slot) is fixed
up to `index`, the signed position of the table being moved.  Returns `none`
when the C code would dereference a null `elem->table` or fail one of its
`ecs_assert`s (map lookup returning null, or `table == elem->table`
failing). -/
def bookkeep (m : IndexMap) (table : TableId) (index : Int)
    (src_array : Arr) (empty : Bool) : Option IndexMap :=
  if src_array.length ≤ 1 then
    -- last_src_index = 0: the table to move is the only table in src
    some m
  else
    match src_array.getLast? with
    | none => none
    | some none => none        -- elem->table is NULL: dereference crashes
    | some (some elemId) =>
      match mapGet m elemId with
      | none => none           -- ecs_assert(old_index_ptr != NULL) fails
      | some oldv =>
        if empty then
          if oldv = (src_array.length : Int) - 1 then
            some (mapSet m elemId index)
          else some m
        else
          if 0 ≤ oldv then
            if elemId = table then
              -- the last table of src is the table being moved: continue
              if oldv = (src_array.length : Int) - 1 then
                some (mapSet m elemId index)
              else some m
            else none          -- ecs_assert(table == elem->table) fails
          else
            if -oldv - 1 = (src_array.length : Int) - 1 then
              some (mapSet m elemId index)
            else some m

/-- `move_table` (`table_cache.c` lines 4-84).  Moves the element of `table`
(whose signed index entry is `index`) out of `src_array`: appended to
`dst_array` when one is given, deleted otherwise; in both cases the vacated
slot of `src_array` is backfilled from the last element.  Returns the new
signed index of the table together with the updated source array, destination
array and index map, or `none` on an internal-error assertion failure.

Note: the local `old_index` declared inside the bookkeeping block of the C
function shadows the outer `old_index`, which stays `0`; the removal branch
taken when no destination array is given therefore removes position `0` of
the source array, whatever `index` is. -/
def move_table (m : IndexMap) (table : TableId) (index : Int)
    (dst_array : Option Arr) (src_array : Arr) (empty : Bool) :
    Option (Int × Arr × Option Arr × IndexMap) :=
  if src_array.length = 0 then
    none                       -- ecs_assert(last_src_index >= 0) fails
  else
    match bookkeep m table index src_array empty with
    | none => none
    | some m2 =>
      match dst_array with
      | some d =>
        let old_index : Int := if empty then index else -index - 1
        if old_index < 0 then none
        else
          match src_array[old_index.toNat]? with
          | none => none       -- vector access out of range
          | some moved =>
            let d2 := d ++ [moved]
            let src2 := vecRemoveIndex src_array old_index.toNat
            -- ecs_assert(elem->table == table) on the last element of dst
            if moved = some table then
              -- ecs_assert(ecs_vector_count(*dst_array) == new_index + 1)
              if d2.length = d.length + 1 then
                -- ecs_assert(ecs_vector_count(src_array) == last_src_index)
                if src2.length + 1 = src_array.length then
                  some (if empty then -(d.length : Int) - 1 else (d.length : Int),
                        src2, some d2, m2)
                else none
              else none
            else none
      | none =>
        -- outer old_index is still 0 here (the bookkeeping block declared
        -- its own local old_index), so position 0 is removed
        let src2 := vecRemoveIndex src_array 0
        if src2.length + 1 = src_array.length then
          some (if empty then -1 else 0, src2, none, m2)
        else none

/-- `_ecs_table_cache_init`: both arrays null (count 0), empty index map. -/
def ecs_table_cache_init : Cache :=
  { tables := [], empty_tables := [], index := [] }

/-- Result of `_ecs_table_cache_insert`: the new cache state, which array
received the new element (`in_empty`), the position of the new element in
that array (`pos`), and the `table` field written into the returned element
(`result->table = table`). -/
structure InsertRet where
  cache : Cache
  in_empty : Bool
  pos : Nat
  elem : Elem
deriving DecidableEq, Repr

/-- The `table` field stored for an inserted (possibly null) table pointer. -/
def tfield (table : Option Table) : Elem := table.map Table.id

/-- `_ecs_table_cache_insert` (`table_cache.c` lines 106-136).  A null table
is treated as non-empty; an element is appended to `empty_tables` when the
table has row count 0 and to `tables` otherwise; for a non-null table the
signed position of the new element is recorded in the index map. -/
def ecs_table_cache_insert (c : Cache) (table : Option Table) : InsertRet :=
  let empty : Bool :=
    match table with
    | none => false
    | some t => decide (t.count = 0)
  if empty then
    let arr := c.empty_tables ++ [tfield table]
    let index : Int := -(arr.length : Int)
    let c2 : Cache := { c with empty_tables := arr }
    match table with
    | some t =>
      { cache := { c2 with index := mapSet c2.index t.id index },
        in_empty := true, pos := c.empty_tables.length, elem := tfield table }
    | none =>
      { cache := c2, in_empty := true, pos := c.empty_tables.length,
        elem := tfield table }
  else
    let index : Int := (c.tables.length : Int)
    let c2 : Cache := { c with tables := c.tables ++ [tfield table] }
    match table with
    | some t =>
      { cache := { c2 with index := mapSet c2.index t.id index },
        in_empty := false, pos := c.tables.length, elem := tfield table }
    | none =>
      { cache := c2, in_empty := false, pos := c.tables.length,
        elem := tfield table }

/-- `_ecs_table_cache_remove` (`table_cache.c` lines 138-152).  Looks up the
table id in the index map; absent means return with no change.  Otherwise
`move_table` is called with no destination array on the array holding the
table.  (The index map entry of the table is not deleted.) -/
def ecs_table_cache_remove (c : Cache) (t : TableId) : Option Cache :=
  match mapGet c.index t with
  | none => some c
  | some i =>
    if i < 0 then
      match move_table c.index t i none c.empty_tables false with
      | none => none
      | some (_, src2, _, m2) =>
        some { c with empty_tables := src2, index := m2 }
    else
      match move_table c.index t i none c.tables true with
      | none => none
      | some (_, src2, _, m2) =>
        some { c with tables := src2, index := m2 }

/-- `_ecs_table_cache_set_empty` (`table_cache.c` lines 154-178).  Looks up
the table id; absent means return with no change; a table already in the
array matching `empty` is left alone; otherwise the table is moved to the
other array by `move_table` and its index entry set to the returned signed
position. -/
def ecs_table_cache_set_empty (c : Cache) (t : TableId) (empty : Bool) :
    Option Cache :=
  match mapGet c.index t with
  | none => some c
  | some i =>
    if empty = true ∧ i < 0 then some c
    else if empty = false ∧ 0 ≤ i then some c
    else if i < 0 then
      match move_table c.index t i (some c.tables) c.empty_tables empty with
      | none => none
      | some (ni, src2, some d2, m2) =>
        some { tables := d2, empty_tables := src2, index := mapSet m2 t ni }
      | some (_, _, none, _) => none
    else
      match move_table c.index t i (some c.empty_tables) c.tables empty with
      | none => none
      | some (ni, src2, some d2, m2) =>
        some { tables := src2, empty_tables := d2, index := mapSet m2 t ni }
      | some (_, _, none, _) => none

/-- The table cache bijection invariant: every registered table id occupies
the slot its signed index entry decodes to (nonnegative `v`: position `v` of
`tables`; negative `v`: position `-v-1` of `empty_tables`), and conversely
every slot of either array holds a non-null table id registered at exactly
that slot.  Together these make the index map a bijection between registered
ids and slots, so each registered table appears in exactly one array. -/
structure Invariant (c : Cache) : Prop where
  tpos : ∀ k v, mapGet c.index k = some v → 0 ≤ v →
    c.tables[v.toNat]? = some (some k)
  epos : ∀ k v, mapGet c.index k = some v → v < 0 →
    c.empty_tables[(-v - 1).toNat]? = some (some k)
  treg : ∀ q, q < c.tables.length →
    ∃ k, c.tables[q]? = some (some k) ∧ mapGet c.index k = some (q : Int)
  ereg : ∀ q, q < c.empty_tables.length →
    ∃ k, c.empty_tables[q]? = some (some k) ∧
      mapGet c.index k = some (-(q : Int) - 1)

/-! ### Helper lemmas about the map and vector primitives -/

theorem mapGet_mapSet_self (m : IndexMap) (k : TableId) (v : Int) :
    mapGet (mapSet m k v) k = some v := by
  induction m with
  | nil => simp [mapGet, mapSet]
  | cons hd tl ih =>
    obtain ⟨k0, v0⟩ := hd
    by_cases hk : k0 = k
    · subst hk; simp [mapGet, mapSet]
    · simp [mapGet, mapSet, hk, ih]

theorem mapGet_mapSet_ne (m : IndexMap) (k k' : TableId) (v : Int)
    (h : k' ≠ k) : mapGet (mapSet m k v) k' = mapGet m k' := by
  induction m with
  | nil =>
    simp only [mapSet, mapGet]
    rw [if_neg (fun hh => h hh.symm)]
  | cons hd tl ih =>
    obtain ⟨k0, v0⟩ := hd
    by_cases hk : k0 = k
    · subst hk
      simp only [mapSet, if_pos rfl, mapGet]
      rw [if_neg (fun hh => h hh.symm), if_neg (fun hh => h hh.symm)]
    · simp only [mapSet, if_neg hk, mapGet]
      by_cases hk' : k0 = k'
      · rw [if_pos hk', if_pos hk']
      · rw [if_neg hk', if_neg hk', ih]

theorem mapSet_self_eq (m : IndexMap) (k : TableId) (v : Int)
    (h : mapGet m k = some v) : mapSet m k v = m := by
  induction m with
  | nil => simp [mapGet] at h
  | cons hd tl ih =>
    obtain ⟨k0, v0⟩ := hd
    by_cases hk : k0 = k
    · subst hk
      simp [mapGet] at h
      simp [mapSet, h]
    · simp only [mapGet, if_neg hk] at h
      simp [mapSet, hk, ih h]

theorem getElem?_lt {α : Type} {l : List α} {q : Nat} {a : α}
    (h : l[q]? = some a) : q < l.length := by
  by_contra hq
  rw [List.getElem?_eq_none (by omega)] at h
  cases h

theorem vecRemoveIndex_length {l : Arr} (h : l ≠ []) (i : Nat) :
    (vecRemoveIndex l i).length = l.length - 1 := by
  obtain ⟨a, ha⟩ := Option.isSome_iff_exists.mp (List.getLast?_isSome.mpr h)
  simp [vecRemoveIndex, ha]

theorem vecRemoveIndex_getElem? {l : Arr} {a : Elem}
    (hlast : l.getLast? = some a) {i q : Nat} (hq : q < l.length - 1) :
    (vecRemoveIndex l i)[q]? = if i = q then some a else l[q]? := by
  simp only [vecRemoveIndex, hlast]
  rw [List.dropLast_eq_take, List.length_set, List.getElem?_take,
    if_pos hq, List.getElem?_set]
  by_cases h : i = q
  · subst h
    rw [if_pos rfl, if_pos rfl, if_pos (by omega)]
  · rw [if_neg h, if_neg h]

/-! ### The bookkeeping block of `move_table` under the invariant -/

theorem bookkeep_tables_eq (c : Cache) (t : TableId) (i : Int)
    (hInv : Invariant c) (hreg : mapGet c.index t = some i) (hpos : 0 ≤ i) :
    ∃ lastId, c.tables.getLast? = some (some lastId) ∧
      mapGet c.index lastId = some ((c.tables.length : Int) - 1) ∧
      bookkeep c.index t i c.tables true = some (mapSet c.index lastId i) := by
  have hpt := hInv.tpos t i hreg hpos
  have hpL : i.toNat < c.tables.length := getElem?_lt hpt
  obtain ⟨lastId, hlt, hlg⟩ := hInv.treg (c.tables.length - 1) (by omega)
  have hlast : c.tables.getLast? = some (some lastId) := by
    rw [List.getLast?_eq_getElem?]; exact hlt
  have hcast : ((c.tables.length - 1 : Nat) : Int) = (c.tables.length : Int) - 1 := by
    omega
  refine ⟨lastId, hlast, by rw [hlg, hcast], ?_⟩
  by_cases hone : c.tables.length ≤ 1
  · have hit : i.toNat = 0 := by omega
    have h0 : c.tables.length - 1 = 0 := by omega
    rw [h0] at hlt
    rw [hit] at hpt
    rw [hpt, Option.some.injEq, Option.some.injEq] at hlt
    subst hlt
    unfold bookkeep
    rw [if_pos hone, mapSet_self_eq c.index t i hreg]
  · unfold bookkeep
    rw [if_neg hone, hlast]
    dsimp only
    rw [hlg]
    dsimp only
    rw [if_pos hcast, if_pos rfl]

theorem bookkeep_empty_eq (c : Cache) (t : TableId) (i : Int)
    (hInv : Invariant c) (hreg : mapGet c.index t = some i) (hneg : i < 0) :
    ∃ lastId, c.empty_tables.getLast? = some (some lastId) ∧
      mapGet c.index lastId = some (-((c.empty_tables.length : Int) - 1) - 1) ∧
      bookkeep c.index t i c.empty_tables false = some (mapSet c.index lastId i) := by
  have hpt := hInv.epos t i hreg hneg
  have hpL : (-i - 1).toNat < c.empty_tables.length := getElem?_lt hpt
  obtain ⟨lastId, hlt, hlg⟩ := hInv.ereg (c.empty_tables.length - 1) (by omega)
  have hlast : c.empty_tables.getLast? = some (some lastId) := by
    rw [List.getLast?_eq_getElem?]; exact hlt
  have hcast : (-((c.empty_tables.length - 1 : Nat) : Int) - 1) =
      -((c.empty_tables.length : Int) - 1) - 1 := by omega
  refine ⟨lastId, hlast, by rw [hlg]; rw [hcast], ?_⟩
  by_cases hone : c.empty_tables.length ≤ 1
  · have hit : (-i - 1).toNat = 0 := by omega
    have h0 : c.empty_tables.length - 1 = 0 := by omega
    rw [h0] at hlt
    rw [hit] at hpt
    rw [hpt, Option.some.injEq, Option.some.injEq] at hlt
    subst hlt
    unfold bookkeep
    rw [if_pos hone, mapSet_self_eq c.index t i hreg]
  · unfold bookkeep
    rw [if_neg hone, hlast]
    dsimp only
    rw [hlg]
    dsimp only
    rw [if_neg (by decide : ¬ (false = true))]
    rw [if_neg (show ¬ (0 : Int) ≤ -((c.empty_tables.length - 1 : Nat) : Int) - 1 by
      omega)]
    rw [if_pos (show -(-((c.empty_tables.length - 1 : Nat) : Int) - 1) - 1 =
      (c.empty_tables.length : Int) - 1 by omega)]

/-! ### `move_table` under the invariant, at its four call shapes -/

theorem move_table_to_empty_eq (c : Cache) (t : TableId) (i : Int)
    (hInv : Invariant c) (hreg : mapGet c.index t = some i) (hpos : 0 ≤ i) :
    ∃ lastId, c.tables.getLast? = some (some lastId) ∧
      move_table c.index t i (some c.empty_tables) c.tables true =
        some (-(c.empty_tables.length : Int) - 1,
              vecRemoveIndex c.tables i.toNat,
              some (c.empty_tables ++ [some t]),
              mapSet c.index lastId i) := by
  obtain ⟨lastId, hlast, _, hbk⟩ := bookkeep_tables_eq c t i hInv hreg hpos
  have hpt := hInv.tpos t i hreg hpos
  have hpL : i.toNat < c.tables.length := getElem?_lt hpt
  have hnil : c.tables ≠ [] := by
    intro hh; rw [hh] at hpL; simp at hpL
  refine ⟨lastId, hlast, ?_⟩
  unfold move_table
  rw [if_neg (by omega), hbk]
  dsimp only
  rw [if_pos rfl]
  rw [if_neg (show ¬ i < 0 by omega), hpt]
  dsimp only
  rw [if_pos rfl, if_pos (by simp), if_pos (by rw [vecRemoveIndex_length hnil]; omega)]
  rw [if_pos rfl]

theorem move_table_to_tables_eq (c : Cache) (t : TableId) (i : Int)
    (hInv : Invariant c) (hreg : mapGet c.index t = some i) (hneg : i < 0) :
    ∃ lastId, c.empty_tables.getLast? = some (some lastId) ∧
      move_table c.index t i (some c.tables) c.empty_tables false =
        some ((c.tables.length : Int),
              vecRemoveIndex c.empty_tables (-i - 1).toNat,
              some (c.tables ++ [some t]),
              mapSet c.index lastId i) := by
  obtain ⟨lastId, hlast, _, hbk⟩ := bookkeep_empty_eq c t i hInv hreg hneg
  have hpt := hInv.epos t i hreg hneg
  have hpL : (-i - 1).toNat < c.empty_tables.length := getElem?_lt hpt
  have hnil : c.empty_tables ≠ [] := by
    intro hh; rw [hh] at hpL; simp at hpL
  refine ⟨lastId, hlast, ?_⟩
  unfold move_table
  rw [if_neg (by omega), hbk]
  dsimp only
  rw [if_neg (by decide : ¬ (false = true))]
  rw [if_neg (show ¬ -i - 1 < 0 by omega), hpt]
  dsimp only
  rw [if_pos rfl, if_pos (by simp), if_pos (by rw [vecRemoveIndex_length hnil]; omega)]
  rw [if_neg (by decide : ¬ (false = true))]

theorem move_table_drop_tables_eq (c : Cache) (t : TableId) (i : Int)
    (hInv : Invariant c) (hreg : mapGet c.index t = some i) (hpos : 0 ≤ i) :
    ∃ lastId, c.tables.getLast? = some (some lastId) ∧
      move_table c.index t i none c.tables true =
        some (-1, vecRemoveIndex c.tables 0, none, mapSet c.index lastId i) := by
  obtain ⟨lastId, hlast, _, hbk⟩ := bookkeep_tables_eq c t i hInv hreg hpos
  have hpt := hInv.tpos t i hreg hpos
  have hpL : i.toNat < c.tables.length := getElem?_lt hpt
  have hnil : c.tables ≠ [] := by
    intro hh; rw [hh] at hpL; simp at hpL
  refine ⟨lastId, hlast, ?_⟩
  unfold move_table
  rw [if_neg (by omega), hbk]
  dsimp only
  rw [if_pos (by rw [vecRemoveIndex_length hnil]; omega)]
  rw [if_pos rfl]

theorem move_table_drop_empty_eq (c : Cache) (t : TableId) (i : Int)
    (hInv : Invariant c) (hreg : mapGet c.index t = some i) (hneg : i < 0) :
    ∃ lastId, c.empty_tables.getLast? = some (some lastId) ∧
      move_table c.index t i none c.empty_tables false =
        some (0, vecRemoveIndex c.empty_tables 0, none, mapSet c.index lastId i) := by
  obtain ⟨lastId, hlast, _, hbk⟩ := bookkeep_empty_eq c t i hInv hreg hneg
  have hpt := hInv.epos t i hreg hneg
  have hpL : (-i - 1).toNat < c.empty_tables.length := getElem?_lt hpt
  have hnil : c.empty_tables ≠ [] := by
    intro hh; rw [hh] at hpL; simp at hpL
  refine ⟨lastId, hlast, ?_⟩
  unfold move_table
  rw [if_neg (by omega), hbk]
  dsimp only
  rw [if_pos (by rw [vecRemoveIndex_length hnil]; omega)]
  rw [if_neg (by decide : ¬ (false = true))]

/-! ### `set_empty` under the invariant: explicit result caches -/

theorem set_empty_true_eq (c : Cache) (t : TableId) (i : Int)
    (hInv : Invariant c) (hreg : mapGet c.index t = some i) (hpos : 0 ≤ i) :
    ∃ lastId, c.tables.getLast? = some (some lastId) ∧
      ecs_table_cache_set_empty c t true = some
        { tables := vecRemoveIndex c.tables i.toNat,
          empty_tables := c.empty_tables ++ [some t],
          index := mapSet (mapSet c.index lastId i) t
            (-(c.empty_tables.length : Int) - 1) } := by
  obtain ⟨lastId, hlast, hmv⟩ := move_table_to_empty_eq c t i hInv hreg hpos
  refine ⟨lastId, hlast, ?_⟩
  unfold ecs_table_cache_set_empty
  rw [hreg]
  dsimp only
  rw [if_neg (by rintro ⟨-, hh⟩; omega)]
  rw [if_neg (by rintro ⟨hh, -⟩; cases hh)]
  rw [if_neg (show ¬ i < 0 by omega), hmv]

theorem set_empty_false_eq (c : Cache) (t : TableId) (i : Int)
    (hInv : Invariant c) (hreg : mapGet c.index t = some i) (hneg : i < 0) :
    ∃ lastId, c.empty_tables.getLast? = some (some lastId) ∧
      ecs_table_cache_set_empty c t false = some
        { tables := c.tables ++ [some t],
          empty_tables := vecRemoveIndex c.empty_tables (-i - 1).toNat,
          index := mapSet (mapSet c.index lastId i) t (c.tables.length : Int) } := by
  obtain ⟨lastId, hlast, hmv⟩ := move_table_to_tables_eq c t i hInv hreg hneg
  refine ⟨lastId, hlast, ?_⟩
  unfold ecs_table_cache_set_empty
  rw [hreg]
  dsimp only
  rw [if_neg (by rintro ⟨hh, -⟩; cases hh)]
  rw [if_neg (by rintro ⟨-, hh⟩; omega)]
  rw [if_pos (show i < 0 by omega), hmv]

theorem set_empty_noop_true (c : Cache) (t : TableId) (i : Int)
    (hreg : mapGet c.index t = some i) (hneg : i < 0) :
    ecs_table_cache_set_empty c t true = some c := by
  unfold ecs_table_cache_set_empty
  rw [hreg]
  dsimp only
  rw [if_pos ⟨rfl, hneg⟩]

theorem set_empty_noop_false (c : Cache) (t : TableId) (i : Int)
    (hreg : mapGet c.index t = some i) (hpos : 0 ≤ i) :
    ecs_table_cache_set_empty c t false = some c := by
  unfold ecs_table_cache_set_empty
  rw [hreg]
  dsimp only
  rw [if_neg (by rintro ⟨hh, -⟩; cases hh)]
  rw [if_pos ⟨rfl, hpos⟩]

/-! ### The bijection invariant is preserved by a `set_empty` move -/

theorem invariant_move_to_empty (c : Cache) (t : TableId) (i : Int) (lastId : TableId)
    (hInv : Invariant c) (hreg : mapGet c.index t = some i) (hpos : 0 ≤ i)
    (hlast : c.tables.getLast? = some (some lastId)) :
    Invariant
      { tables := vecRemoveIndex c.tables i.toNat,
        empty_tables := c.empty_tables ++ [some t],
        index := mapSet (mapSet c.index lastId i) t
          (-(c.empty_tables.length : Int) - 1) } := by
  have hpt := hInv.tpos t i hreg hpos
  have hpL : i.toNat < c.tables.length := getElem?_lt hpt
  have hnil : c.tables ≠ [] := by
    intro hh; rw [hh] at hpL; simp at hpL
  have hlge : c.tables[c.tables.length - 1]? = some (some lastId) := by
    rw [← List.getLast?_eq_getElem?]; exact hlast
  have hlreg : mapGet c.index lastId = some ((c.tables.length - 1 : Nat) : Int) := by
    obtain ⟨k0, hk01, hk02⟩ := hInv.treg (c.tables.length - 1) (by omega)
    rw [hlge] at hk01
    injection hk01 with hh
    injection hh with hh
    rw [hh]; exact hk02
  have hM : ∀ u, mapGet (mapSet (mapSet c.index lastId i) t
      (-(c.empty_tables.length : Int) - 1)) u =
      if u = t then some (-(c.empty_tables.length : Int) - 1)
      else if u = lastId then some i else mapGet c.index u := by
    intro u
    by_cases hut : u = t
    · subst hut; rw [if_pos rfl, mapGet_mapSet_self]
    · rw [if_neg hut, mapGet_mapSet_ne _ _ _ _ hut]
      by_cases hul : u = lastId
      · subst hul; rw [if_pos rfl, mapGet_mapSet_self]
      · rw [if_neg hul, mapGet_mapSet_ne _ _ _ _ hul]
  refine ⟨?_, ?_, ?_, ?_⟩
  · -- tpos
    intro k v hkv hv0
    dsimp only at hkv ⊢
    rw [hM k] at hkv
    by_cases hkt : k = t
    · rw [if_pos hkt] at hkv
      injection hkv with hkv
      omega
    · rw [if_neg hkt] at hkv
      by_cases hkl : k = lastId
      · rw [if_pos hkl] at hkv
        injection hkv with hkv
        subst hkl
        have hpne : i.toNat ≠ c.tables.length - 1 := by
          intro hh
          rw [hh, hlge] at hpt
          simp at hpt
          exact hkt hpt
        rw [← hkv]
        rw [vecRemoveIndex_getElem? hlast (by omega), if_pos rfl]
      · rw [if_neg hkl] at hkv
        have hold := hInv.tpos k v hkv hv0
        have hvL : v.toNat < c.tables.length := getElem?_lt hold
        have hvp : v.toNat ≠ i.toNat := by
          intro hh
          rw [hh, hpt] at hold
          simp at hold
          exact hkt hold.symm
        have hvl : v.toNat ≠ c.tables.length - 1 := by
          intro hh
          rw [hh, hlge] at hold
          simp at hold
          exact hkl hold.symm
        rw [vecRemoveIndex_getElem? hlast (by omega),
          if_neg (fun hh => hvp hh.symm)]
        exact hold
  · -- epos
    intro k v hkv hvneg
    dsimp only at hkv ⊢
    rw [hM k] at hkv
    by_cases hkt : k = t
    · rw [if_pos hkt] at hkv
      injection hkv with hkv
      subst hkt
      have he : (-v - 1).toNat = c.empty_tables.length := by omega
      rw [he, List.getElem?_concat_length]
    · rw [if_neg hkt] at hkv
      by_cases hkl : k = lastId
      · rw [if_pos hkl] at hkv
        injection hkv with hkv
        omega
      · rw [if_neg hkl] at hkv
        have hold := hInv.epos k v hkv hvneg
        have hvE : (-v - 1).toNat < c.empty_tables.length := getElem?_lt hold
        rw [List.getElem?_append, if_pos hvE]
        exact hold
  · -- treg
    intro q hq
    dsimp only at hq ⊢
    rw [vecRemoveIndex_length hnil] at hq
    by_cases hqp : q = i.toNat
    · subst hqp
      have hlnt : lastId ≠ t := by
        intro hh
        rw [hh, hreg] at hlreg
        injection hlreg with hlreg
        omega
      refine ⟨lastId, ?_, ?_⟩
      · rw [vecRemoveIndex_getElem? hlast (by omega), if_pos rfl]
      · rw [hM lastId, if_neg hlnt, if_pos rfl, Int.toNat_of_nonneg hpos]
    · obtain ⟨k, hk1, hk2⟩ := hInv.treg q (by omega)
      have hknt : k ≠ t := by
        intro hh; subst hh
        rw [hreg] at hk2
        injection hk2 with hk2
        omega
      have hknl : k ≠ lastId := by
        intro hh; subst hh
        rw [hlreg] at hk2
        injection hk2 with hk2
        omega
      refine ⟨k, ?_, ?_⟩
      · rw [vecRemoveIndex_getElem? hlast (by omega),
          if_neg (fun hh => hqp hh.symm)]
        exact hk1
      · rw [hM k, if_neg hknt, if_neg hknl]
        exact hk2
  · -- ereg
    intro q hq
    dsimp only at hq ⊢
    simp only [List.length_append, List.length_singleton] at hq
    by_cases hqE : q = c.empty_tables.length
    · subst hqE
      refine ⟨t, List.getElem?_concat_length _ _, ?_⟩
      rw [hM t, if_pos rfl]
    · have hqE' : q < c.empty_tables.length := by omega
      obtain ⟨k, hk1, hk2⟩ := hInv.ereg q hqE'
      have hknt : k ≠ t := by
        intro hh; subst hh
        rw [hreg] at hk2
        injection hk2 with hk2
        omega
      have hknl : k ≠ lastId := by
        intro hh; subst hh
        rw [hlreg] at hk2
        injection hk2 with hk2
        omega
      refine ⟨k, ?_, ?_⟩
      · rw [List.getElem?_append, if_pos hqE']
        exact hk1
      · rw [hM k, if_neg hknt, if_neg hknl]
        exact hk2

theorem invariant_move_to_tables (c : Cache) (t : TableId) (i : Int) (lastId : TableId)
    (hInv : Invariant c) (hreg : mapGet c.index t = some i) (hneg : i < 0)
    (hlast : c.empty_tables.getLast? = some (some lastId)) :
    Invariant
      { tables := c.tables ++ [some t],
        empty_tables := vecRemoveIndex c.empty_tables (-i - 1).toNat,
        index := mapSet (mapSet c.index lastId i) t (c.tables.length : Int) } := by
  have hpt := hInv.epos t i hreg hneg
  have hpE : (-i - 1).toNat < c.empty_tables.length := getElem?_lt hpt
  have hnil : c.empty_tables ≠ [] := by
    intro hh; rw [hh] at hpE; simp at hpE
  have hlge : c.empty_tables[c.empty_tables.length - 1]? = some (some lastId) := by
    rw [← List.getLast?_eq_getElem?]; exact hlast
  have hlreg : mapGet c.index lastId =
      some (-((c.empty_tables.length - 1 : Nat) : Int) - 1) := by
    obtain ⟨k0, hk01, hk02⟩ := hInv.ereg (c.empty_tables.length - 1) (by omega)
    rw [hlge] at hk01
    injection hk01 with hh
    injection hh with hh
    rw [hh]; exact hk02
  have hM : ∀ u, mapGet (mapSet (mapSet c.index lastId i) t
      (c.tables.length : Int)) u =
      if u = t then some (c.tables.length : Int)
      else if u = lastId then some i else mapGet c.index u := by
    intro u
    by_cases hut : u = t
    · subst hut; rw [if_pos rfl, mapGet_mapSet_self]
    · rw [if_neg hut, mapGet_mapSet_ne _ _ _ _ hut]
      by_cases hul : u = lastId
      · subst hul; rw [if_pos rfl, mapGet_mapSet_self]
      · rw [if_neg hul, mapGet_mapSet_ne _ _ _ _ hul]
  refine ⟨?_, ?_, ?_, ?_⟩
  · -- tpos
    intro k v hkv hv0
    dsimp only at hkv ⊢
    rw [hM k] at hkv
    by_cases hkt : k = t
    · rw [if_pos hkt] at hkv
      injection hkv with hkv
      subst hkt
      have he : v.toNat = c.tables.length := by omega
      rw [he, List.getElem?_concat_length]
    · rw [if_neg hkt] at hkv
      by_cases hkl : k = lastId
      · rw [if_pos hkl] at hkv
        injection hkv with hkv
        omega
      · rw [if_neg hkl] at hkv
        have hold := hInv.tpos k v hkv hv0
        have hvL : v.toNat < c.tables.length := getElem?_lt hold
        rw [List.getElem?_append, if_pos hvL]
        exact hold
  · -- epos
    intro k v hkv hvneg
    dsimp only at hkv ⊢
    rw [hM k] at hkv
    by_cases hkt : k = t
    · rw [if_pos hkt] at hkv
      injection hkv with hkv
      omega
    · rw [if_neg hkt] at hkv
      by_cases hkl : k = lastId
      · rw [if_pos hkl] at hkv
        injection hkv with hkv
        subst hkl
        have hpne : (-i - 1).toNat ≠ c.empty_tables.length - 1 := by
          intro hh
          rw [hh, hlge] at hpt
          simp at hpt
          exact hkt hpt
        rw [← hkv]
        rw [vecRemoveIndex_getElem? hlast (by omega), if_pos rfl]
      · rw [if_neg hkl] at hkv
        have hold := hInv.epos k v hkv hvneg
        have hvE : (-v - 1).toNat < c.empty_tables.length := getElem?_lt hold
        have hvp : (-v - 1).toNat ≠ (-i - 1).toNat := by
          intro hh
          rw [hh, hpt] at hold
          simp at hold
          exact hkt hold.symm
        have hvl : (-v - 1).toNat ≠ c.empty_tables.length - 1 := by
          intro hh
          rw [hh, hlge] at hold
          simp at hold
          exact hkl hold.symm
        rw [vecRemoveIndex_getElem? hlast (by omega),
          if_neg (fun hh => hvp hh.symm)]
        exact hold
  · -- treg
    intro q hq
    dsimp only at hq ⊢
    simp only [List.length_append, List.length_singleton] at hq
    by_cases hqL : q = c.tables.length
    · subst hqL
      refine ⟨t, List.getElem?_concat_length _ _, ?_⟩
      rw [hM t, if_pos rfl]
    · have hqL' : q < c.tables.length := by omega
      obtain ⟨k, hk1, hk2⟩ := hInv.treg q hqL'
      have hknt : k ≠ t := by
        intro hh; subst hh
        rw [hreg] at hk2
        injection hk2 with hk2
        omega
      have hknl : k ≠ lastId := by
        intro hh; subst hh
        rw [hlreg] at hk2
        injection hk2 with hk2
        omega
      refine ⟨k, ?_, ?_⟩
      · rw [List.getElem?_append, if_pos hqL']
        exact hk1
      · rw [hM k, if_neg hknt, if_neg hknl]
        exact hk2
  · -- ereg
    intro q hq
    dsimp only at hq ⊢
    rw [vecRemoveIndex_length hnil] at hq
    by_cases hqp : q = (-i - 1).toNat
    · subst hqp
      have hlnt : lastId ≠ t := by
        intro hh
        rw [hh, hreg] at hlreg
        injection hlreg with hlreg
        omega
      refine ⟨lastId, ?_, ?_⟩
      · rw [vecRemoveIndex_getElem? hlast (by omega), if_pos rfl]
      · rw [hM lastId, if_neg hlnt, if_pos rfl]
        congr 1
        omega
    · obtain ⟨k, hk1, hk2⟩ := hInv.ereg q (by omega)
      have hknt : k ≠ t := by
        intro hh; subst hh
        rw [hreg] at hk2
        injection hk2 with hk2
        omega
      have hknl : k ≠ lastId := by
        intro hh; subst hh
        rw [hlreg] at hk2
        injection hk2 with hk2
        omega
      refine ⟨k, ?_, ?_⟩
      · rw [vecRemoveIndex_getElem? hlast (by omega),
          if_neg (fun hh => hqp hh.symm)]
        exact hk1
      · rw [hM k, if_neg hknt, if_neg hknl]
        exact hk2

/-! ### A small concrete cache satisfying the invariant -/

theorem invariant_example :
    Invariant { tables := [some 1], empty_tables := [], index := [(1, 0)] } := by
  refine ⟨?_, ?_, ?_, ?_⟩
  · intro k v hkv hv0
    dsimp only at hkv ⊢
    simp only [mapGet] at hkv
    split at hkv
    · rename_i hk
      injection hkv with hkv
      subst hk
      rw [← hkv]
      decide
    · cases hkv
  · intro k v hkv hvneg
    dsimp only at hkv ⊢
    simp only [mapGet] at hkv
    split at hkv
    · injection hkv with hkv
      omega
    · cases hkv
  · intro q hq
    dsimp only at hq ⊢
    simp only [List.length_cons, List.length_nil] at hq
    have hq0 : q = 0 := by omega
    subst hq0
    exact ⟨1, by decide, by decide⟩
  · intro q hq
    dsimp only at hq ⊢
    simp at hq

/-! ### Explicit forms of `insert` in its three cases -/

theorem insert_null_eq (c : Cache) :
    ecs_table_cache_insert c none =
      { cache := { tables := c.tables ++ [none],
                   empty_tables := c.empty_tables,
                   index := c.index },
        in_empty := false, pos := c.tables.length, elem := none } := rfl

theorem insert_empty_eq (c : Cache) (u : Table) (hc : u.count = 0) :
    ecs_table_cache_insert c (some u) =
      { cache := { tables := c.tables,
                   empty_tables := c.empty_tables ++ [some u.id],
                   index := mapSet c.index u.id
                     (-((c.empty_tables.length : Int) + 1)) },
        in_empty := true, pos := c.empty_tables.length, elem := some u.id } := by
  have hb : decide (u.count = 0) = true := by simp [hc]
  unfold ecs_table_cache_insert
  dsimp only
  rw [hb]
  dsimp only [tfield, Option.map]
  have harr : (((c.empty_tables ++ [some u.id]).length : Nat) : Int) =
      (c.empty_tables.length : Int) + 1 := by
    simp
  rw [if_pos rfl, harr]

theorem insert_nonempty_eq (c : Cache) (u : Table) (hc : u.count ≠ 0) :
    ecs_table_cache_insert c (some u) =
      { cache := { tables := c.tables ++ [some u.id],
                   empty_tables := c.empty_tables,
                   index := mapSet c.index u.id (c.tables.length : Int) },
        in_empty := false, pos := c.tables.length, elem := some u.id } := by
  have hb : decide (u.count = 0) = false := by simp [hc]
  unfold ecs_table_cache_insert
  dsimp only
  rw [hb]
  dsimp only [tfield, Option.map]
  rw [if_neg (by decide : ¬ (false = true))]

/-! ### Claims -/

/-- C5: inserting a non-null table not yet registered places it in the empty
array when its row count is 0 and in the non-empty array otherwise, appended
at the end, and records its signed position under the encoding nonnegative
`i` = position `i` of the non-empty array, negative `k` = position `-k-1` of
the empty array. -/
theorem C5_insert_places_and_encodes (c : Cache) (t : Table)
    (hnew : mapGet c.index t.id = none) :
    (t.count = 0 →
      ecs_table_cache_insert c (some t) =
        { cache := { tables := c.tables,
                     empty_tables := c.empty_tables ++ [some t.id],
                     index := mapSet c.index t.id
                       (-((c.empty_tables.length : Int) + 1)) },
          in_empty := true, pos := c.empty_tables.length, elem := some t.id } ∧
      mapGet (ecs_table_cache_insert c (some t)).cache.index t.id =
        some (-((c.empty_tables.length : Int) + 1)) ∧
      -((c.empty_tables.length : Int) + 1) < 0 ∧
      (-(-((c.empty_tables.length : Int) + 1)) - 1).toNat =
        c.empty_tables.length) ∧
    (t.count ≠ 0 →
      ecs_table_cache_insert c (some t) =
        { cache := { tables := c.tables ++ [some t.id],
                     empty_tables := c.empty_tables,
                     index := mapSet c.index t.id (c.tables.length : Int) },
          in_empty := false, pos := c.tables.length, elem := some t.id } ∧
      mapGet (ecs_table_cache_insert c (some t)).cache.index t.id =
        some (c.tables.length : Int) ∧
      (0 : Int) ≤ (c.tables.length : Int) ∧
      ((c.tables.length : Int)).toNat = c.tables.length) := by
  constructor
  · intro hc
    have heq := insert_empty_eq c t hc
    refine ⟨heq, ?_, by omega, by omega⟩
    rw [heq]
    dsimp only
    rw [mapGet_mapSet_self]
  · intro hc
    have heq := insert_nonempty_eq c t hc
    refine ⟨heq, ?_, by omega, by omega⟩
    rw [heq]
    dsimp only
    rw [mapGet_mapSet_self]

/-- C5 witness: inserting table 3 with row count 0 into a fresh cache. -/
theorem C5_insert_witness :
    ecs_table_cache_insert ecs_table_cache_init (some ⟨3, 0⟩) =
      { cache := { tables := [], empty_tables := [some 3], index := [(3, -1)] },
        in_empty := true, pos := 0, elem := some 3 } :=
  ((C5_insert_places_and_encodes ecs_table_cache_init ⟨3, 0⟩ rfl).1 rfl).1

/-- C8: for a table id with no entry in the index map, both `remove` and
`set_empty` return immediately and leave the cache completely unchanged. -/
theorem C8_unregistered_noop (c : Cache) (t : TableId)
    (h : mapGet c.index t = none) :
    ecs_table_cache_remove c t = some c ∧
    (∀ e, ecs_table_cache_set_empty c t e = some c) := by
  constructor
  · unfold ecs_table_cache_remove
    rw [h]
  · intro e
    unfold ecs_table_cache_set_empty
    rw [h]

/-- C8 witness: table id 5 is not registered in a fresh cache. -/
theorem C8_unregistered_witness :
    ecs_table_cache_remove ecs_table_cache_init 5 = some ecs_table_cache_init ∧
    ecs_table_cache_set_empty ecs_table_cache_init 5 true = some ecs_table_cache_init :=
  ⟨(C8_unregistered_noop ecs_table_cache_init 5 rfl).1,
   (C8_unregistered_noop ecs_table_cache_init 5 rfl).2 true⟩

/-- C9 (amended): inserting a null table pointer treats the element as
non-empty: it appends a new element with a null `table` field at the end of
the non-empty array, records no entry in the index map (the index map is
unchanged, so no `remove`/`set_empty` call can reach the element through an
index lookup), and returns that element.  The element can however still be
displaced or destroyed by a later `remove` of a different table. -/
theorem C9_insert_null (c : Cache) :
    ecs_table_cache_insert c none =
      { cache := { tables := c.tables ++ [none],
                   empty_tables := c.empty_tables,
                   index := c.index },
        in_empty := false, pos := c.tables.length, elem := none } := rfl

/-- C9 counterexample: after inserting NULL and then table 1 (row count 1),
removing table 1 destroys the NULL element (the claim said a NULL insertion
can never be removed by `remove`/`set_empty`). -/
theorem C9_null_elem_destroyed :
    (ecs_table_cache_insert (ecs_table_cache_insert ecs_table_cache_init none).cache
        (some ⟨1, 1⟩)).cache =
      { tables := [none, some 1], empty_tables := [], index := [(1, 1)] } ∧
    ecs_table_cache_remove
        { tables := [none, some 1], empty_tables := [], index := [(1, 1)] } 1 =
      some { tables := [some 1], empty_tables := [], index := [(1, 1)] } ∧
    none ∈ ({ tables := [none, some 1], empty_tables := [],
              index := [(1, 1)] } : Cache).tables ∧
    none ∉ ({ tables := [some 1], empty_tables := [],
              index := [(1, 1)] } : Cache).tables ∧
    none ∉ ({ tables := [some 1], empty_tables := [],
              index := [(1, 1)] } : Cache).empty_tables := by
  refine ⟨rfl, by decide, by decide, by decide, by decide⟩

/-- C10 counterexample: inserting the same table id twice changes the
pre-existing index-map entry for that id (from position 0 to position 1), so
not every pre-existing index-map entry is unchanged. -/
theorem C10_reinsert_overwrites :
    (ecs_table_cache_insert (ecs_table_cache_insert ecs_table_cache_init
        (some ⟨1, 1⟩)).cache (some ⟨1, 1⟩)).cache.index = [(1, 1)] ∧
    (ecs_table_cache_insert ecs_table_cache_init (some ⟨1, 1⟩)).cache.index =
      [(1, 0)] :=
  ⟨rfl, rfl⟩

/-- C10 (amended): `insert` appends one element at the end of exactly one of
the two arrays, leaving the other array and every existing element unchanged;
every pre-existing index-map entry whose key differs from the inserted
table's id is unchanged (an entry under the same id is overwritten), and a
null insert leaves the index map untouched. -/
theorem C10_insert_frame (c : Cache) (table : Option Table) :
    ((ecs_table_cache_insert c table).in_empty = true →
      (ecs_table_cache_insert c table).cache.empty_tables =
        c.empty_tables ++ [tfield table] ∧
      (ecs_table_cache_insert c table).cache.tables = c.tables) ∧
    ((ecs_table_cache_insert c table).in_empty = false →
      (ecs_table_cache_insert c table).cache.tables =
        c.tables ++ [tfield table] ∧
      (ecs_table_cache_insert c table).cache.empty_tables = c.empty_tables) ∧
    (∀ k, (∀ u, table = some u → k ≠ u.id) →
      mapGet (ecs_table_cache_insert c table).cache.index k =
        mapGet c.index k) ∧
    (table = none → (ecs_table_cache_insert c table).cache.index = c.index) := by
  cases table with
  | none =>
    refine ⟨?_, fun _ => ⟨rfl, rfl⟩, fun k _ => rfl, fun _ => rfl⟩
    intro h
    rw [insert_null_eq] at h
    cases h
  | some u =>
    by_cases hc : u.count = 0
    · have heq := insert_empty_eq c u hc
      rw [heq]
      refine ⟨fun _ => ⟨rfl, rfl⟩, ?_, ?_, ?_⟩
      · intro h; cases h
      · intro k hk
        dsimp only
        exact mapGet_mapSet_ne _ _ _ _ (hk u rfl)
      · intro h; cases h
    · have heq := insert_nonempty_eq c u hc
      rw [heq]
      refine ⟨?_, fun _ => ⟨rfl, rfl⟩, ?_, ?_⟩
      · intro h; cases h
      · intro k hk
        dsimp only
        exact mapGet_mapSet_ne _ _ _ _ (hk u rfl)
      · intro h; cases h

/-- C10 witness: inserting table 1 into a cache already holding table 3 at
position 0 of the empty array leaves the entry of key 3 unchanged. -/
theorem C10_insert_frame_witness :
    mapGet (ecs_table_cache_insert
      { tables := [], empty_tables := [some 3], index := [(3, -1)] }
      (some ⟨1, 1⟩)).cache.index 3 =
    mapGet [(3, -1)] 3 :=
  (C10_insert_frame { tables := [], empty_tables := [some 3], index := [(3, -1)] }
    (some ⟨1, 1⟩)).2.2.1 3 (by intro u hu; cases hu; decide)

/-- C3: for a cache satisfying the bijection invariant and a registered table,
`set_empty` is a no-op when the table is already in the array matching the
`empty` flag (index entry negative iff `empty` is true); otherwise it moves
the table to the other array: the vacated slot of the source array is
backfilled by its last element (swap-to-fill) whose index entry is corrected
to the vacated signed position, the table is appended at the end of the
destination array, and the table's index entry is updated to encode the new
array and position. -/
theorem C3_set_empty_correct (c : Cache) (t : TableId) (e : Bool) (i : Int)
    (hInv : Invariant c) (hreg : mapGet c.index t = some i) :
    ((e = true → i < 0 → ecs_table_cache_set_empty c t e = some c) ∧
     (e = false → 0 ≤ i → ecs_table_cache_set_empty c t e = some c)) ∧
    (e = true → 0 ≤ i →
      ∃ lastId c2, c.tables.getLast? = some (some lastId) ∧
        ecs_table_cache_set_empty c t e = some c2 ∧
        c2.tables = vecRemoveIndex c.tables i.toNat ∧
        c2.empty_tables = c.empty_tables ++ [some t] ∧
        mapGet c2.index t = some (-(c.empty_tables.length : Int) - 1) ∧
        (∀ u, u ≠ t → mapGet c2.index u =
          if u = lastId then some i else mapGet c.index u)) ∧
    (e = false → i < 0 →
      ∃ lastId c2, c.empty_tables.getLast? = some (some lastId) ∧
        ecs_table_cache_set_empty c t e = some c2 ∧
        c2.empty_tables = vecRemoveIndex c.empty_tables (-i - 1).toNat ∧
        c2.tables = c.tables ++ [some t] ∧
        mapGet c2.index t = some (c.tables.length : Int) ∧
        (∀ u, u ≠ t → mapGet c2.index u =
          if u = lastId then some i else mapGet c.index u)) := by
  refine ⟨⟨?_, ?_⟩, ?_, ?_⟩
  · intro he hi
    subst he
    exact set_empty_noop_true c t i hreg hi
  · intro he hi
    subst he
    exact set_empty_noop_false c t i hreg hi
  · intro he hi
    subst he
    obtain ⟨lastId, hlast, heq⟩ := set_empty_true_eq c t i hInv hreg hi
    refine ⟨lastId, _, hlast, heq, rfl, rfl, ?_, ?_⟩
    · dsimp only
      rw [mapGet_mapSet_self]
    · intro u hu
      dsimp only
      rw [mapGet_mapSet_ne _ _ _ _ hu]
      by_cases hul : u = lastId
      · subst hul
        rw [if_pos rfl, mapGet_mapSet_self]
      · rw [if_neg hul, mapGet_mapSet_ne _ _ _ _ hul]
  · intro he hi
    subst he
    obtain ⟨lastId, hlast, heq⟩ := set_empty_false_eq c t i hInv hreg hi
    refine ⟨lastId, _, hlast, heq, rfl, rfl, ?_, ?_⟩
    · dsimp only
      rw [mapGet_mapSet_self]
    · intro u hu
      dsimp only
      rw [mapGet_mapSet_ne _ _ _ _ hu]
      by_cases hul : u = lastId
      · subst hul
        rw [if_pos rfl, mapGet_mapSet_self]
      · rw [if_neg hul, mapGet_mapSet_ne _ _ _ _ hul]

/-- C3 witness: `set_empty(t, false)` on a table already in the non-empty
array is a no-op. -/
theorem C3_set_empty_witness :
    ecs_table_cache_set_empty
      { tables := [some 1], empty_tables := [], index := [(1, 0)] } 1 false =
    some { tables := [some 1], empty_tables := [], index := [(1, 0)] } :=
  (C3_set_empty_correct
    { tables := [some 1], empty_tables := [], index := [(1, 0)] } 1 false 0
    invariant_example rfl).1.2 rfl (by decide)

/-- C4: for a cache satisfying the bijection invariant in which table `t` is
listed in the non-empty array, `set_empty(t, true)` puts `t` into the empty
array with a correctly encoded negative index entry (it sits at the position
the entry decodes to), shrinks the non-empty array by exactly one element,
and the resulting cache satisfies the bijection invariant again (so every
remaining table keeps a correct index entry). -/
theorem C4_cache_move_correct (c : Cache) (t : TableId) (i : Int)
    (hInv : Invariant c) (hreg : mapGet c.index t = some i) (hpos : 0 ≤ i) :
    ∃ c2, ecs_table_cache_set_empty c t true = some c2 ∧
      mapGet c2.index t = some (-(c.empty_tables.length : Int) - 1) ∧
      (-(-(c.empty_tables.length : Int) - 1) - 1).toNat = c.empty_tables.length ∧
      c2.empty_tables[c.empty_tables.length]? = some (some t) ∧
      c2.tables.length = c.tables.length - 1 ∧
      Invariant c2 := by
  obtain ⟨lastId, hlast, heq⟩ := set_empty_true_eq c t i hInv hreg hpos
  have hpt := hInv.tpos t i hreg hpos
  have hpL : i.toNat < c.tables.length := getElem?_lt hpt
  have hnil : c.tables ≠ [] := by
    intro hh; rw [hh] at hpL; simp at hpL
  refine ⟨_, heq, ?_, by omega, ?_, ?_, ?_⟩
  · dsimp only
    rw [mapGet_mapSet_self]
  · dsimp only
    rw [List.getElem?_concat_length]
  · dsimp only
    rw [vecRemoveIndex_length hnil]
  · exact invariant_move_to_empty c t i lastId hInv hreg hpos hlast

/-- C4 witness: moving the only non-empty table of a one-table cache to the
empty array. -/
theorem C4_cache_move_witness :
    ∃ c2, ecs_table_cache_set_empty
        { tables := [some 1], empty_tables := [], index := [(1, 0)] } 1 true =
      some c2 ∧
      mapGet c2.index 1 = some (-(([] : Arr).length : Int) - 1) ∧
      (-(-(([] : Arr).length : Int) - 1) - 1).toNat = ([] : Arr).length ∧
      c2.empty_tables[([] : Arr).length]? = some (some 1) ∧
      c2.tables.length = ([some 1] : Arr).length - 1 ∧
      Invariant c2 :=
  C4_cache_move_correct
    { tables := [some 1], empty_tables := [], index := [(1, 0)] } 1 0
    invariant_example rfl (by decide)

/-- C7: under the bijection invariant, with the moved table registered at the
given signed index, none of the internal-error assertions in `move_table`
fires at any of its four call shapes (`remove`/`set_empty` on either array):
the source array is non-empty, the index lookup for the backfilling element
succeeds, and the post-move checks on the destination and source arrays
hold, so `move_table` returns a result rather than aborting. -/
theorem C7_move_table_asserts_hold (c : Cache) (t : TableId) (i : Int)
    (hInv : Invariant c) (hreg : mapGet c.index t = some i) :
    (0 ≤ i → move_table c.index t i none c.tables true ≠ none) ∧
    (i < 0 → move_table c.index t i none c.empty_tables false ≠ none) ∧
    (0 ≤ i → move_table c.index t i (some c.empty_tables) c.tables true ≠ none) ∧
    (i < 0 → move_table c.index t i (some c.tables) c.empty_tables false ≠ none) := by
  refine ⟨?_, ?_, ?_, ?_⟩
  · intro hi
    obtain ⟨lastId, -, heq⟩ := move_table_drop_tables_eq c t i hInv hreg hi
    rw [heq]
    simp
  · intro hi
    obtain ⟨lastId, -, heq⟩ := move_table_drop_empty_eq c t i hInv hreg hi
    rw [heq]
    simp
  · intro hi
    obtain ⟨lastId, -, heq⟩ := move_table_to_empty_eq c t i hInv hreg hi
    rw [heq]
    simp
  · intro hi
    obtain ⟨lastId, -, heq⟩ := move_table_to_tables_eq c t i hInv hreg hi
    rw [heq]
    simp

/-- C7 witness: the `remove`-shaped `move_table` call on a registered table
of a one-table cache does not fail an assertion. -/
theorem C7_move_table_witness :
    move_table [(1, 0)] 1 0 none [some 1] true ≠ none :=
  (C7_move_table_asserts_hold
    { tables := [some 1], empty_tables := [], index := [(1, 0)] } 1 0
    invariant_example rfl).1 (by decide)

/-- C1: after insert(t1), insert(t2) (both with one row) and remove(t2), the
bijection invariant is broken: `remove` swap-removes position 0 of the array
(the outer `old_index` of `move_table` is never assigned on this path, the
bookkeeping block declares its own shadowing local) and never deletes t2's
index entry; t1's element is destroyed while t1 stays registered at position
0, which now holds t2.  Hence the invariant is not maintained by every
insert/remove/set_empty sequence from an initialized cache. -/
theorem C1_remove_breaks_bijection :
    (ecs_table_cache_insert (ecs_table_cache_insert ecs_table_cache_init
        (some ⟨1, 1⟩)).cache (some ⟨2, 1⟩)).cache =
      { tables := [some 1, some 2], empty_tables := [], index := [(1, 0), (2, 1)] } ∧
    ecs_table_cache_remove
        { tables := [some 1, some 2], empty_tables := [], index := [(1, 0), (2, 1)] } 2 =
      some { tables := [some 2], empty_tables := [], index := [(1, 0), (2, 1)] } ∧
    ¬ Invariant { tables := [some 2], empty_tables := [], index := [(1, 0), (2, 1)] } := by
  refine ⟨rfl, by decide, ?_⟩
  intro h
  exact absurd (h.tpos 1 0 rfl (by decide)) (by decide)

/-- C2: `remove` on table 2, registered at position 1 of the non-empty array,
does not delete table 2's element (it is still in the array) nor its index
entry (still present, still 1), and instead destroys the element at position
0 (table 1's element is in neither array afterwards).  This contradicts the
claim that `remove` deletes the table's entry and backfills the slot it
vacated. -/
theorem C2_remove_wrong_slot :
    ecs_table_cache_remove
        { tables := [some 1, some 2], empty_tables := [], index := [(1, 0), (2, 1)] } 2 =
      some { tables := [some 2], empty_tables := [], index := [(1, 0), (2, 1)] } ∧
    some 2 ∈ ({ tables := [some 2], empty_tables := [],
                index := [(1, 0), (2, 1)] } : Cache).tables ∧
    mapGet [(1, 0), (2, 1)] 2 = some 1 ∧
    some 1 ∉ ({ tables := [some 2], empty_tables := [],
                index := [(1, 0), (2, 1)] } : Cache).tables ∧
    some 1 ∉ ({ tables := [some 2], empty_tables := [],
                index := [(1, 0), (2, 1)] } : Cache).empty_tables := by
  refine ⟨by decide, by decide, rfl, by decide, by decide⟩

/-- C6: removing the only element of an array does skip the backfill
bookkeeping (no other element's index entry is touched), but the resulting
cache violates the bijection invariant: the removed table's index entry is
never deleted (`remove` has no map-delete), so table 1 stays registered at
position 0 of an array that is now empty. -/
theorem C6_singleton_remove_leaves_entry :
    ecs_table_cache_remove
        { tables := [some 1], empty_tables := [], index := [(1, 0)] } 1 =
      some { tables := [], empty_tables := [], index := [(1, 0)] } ∧
    mapGet [(1, 0)] 1 = some 0 ∧
    ¬ Invariant { tables := [], empty_tables := [], index := [(1, 0)] } := by
  refine ⟨by decide, rfl, ?_⟩
  intro h
  exact absurd (h.tpos 1 0 rfl (by decide)) (by decide)

end TableCache
